import Mathlib

/-!
Verification development for the RAG backend (src/backend/app).

The Python source is shallowly embedded: the index is a list of chunk
records, the external Azure AI Search service is modelled by an executable
OData-style filter grammar together with an abstract relevance score, and
the orchestration functions of services.py and router.py are translated
into pure Lean functions.  Fallible external calls (PDF page extraction,
per-id deletion outcomes, search-service failures) are threaded through as
explicit Except values or Boolean oracles.
-/

/-- The single-quote character, written via its code point so that filter
strings can be assembled without quote literals. -/
def squoteChar : Char := Char.ofNat 39

/-- The single-quote character as a one-character string. -/
def squote : String := String.mk [squoteChar]

/-- A document stored in the shared Azure AI Search index.  Mirrors the
schema AZURE_SEARCH_FIELDS of src/backend/app/config.py: id (key), content,
metadata (a JSON string), title, source, user_id.  The string uuid key
generated by the AzureSearch client is abstracted as a Nat; the embedding
vector plays no role in any claim and is omitted. -/
structure Chunk where
  id : Nat
  content : String
  source : String
  title : String
  user_id : String
  metadata : String
  deriving DecidableEq, Repr

/-- The persistent index state: the stored chunks plus the next fresh key
the client will assign (modelling the uniquely generated uuid keys). -/
structure IndexState where
  chunks : List Chunk
  nextId : Nat
  deriving DecidableEq, Repr

/-! ## The OData filter sublanguage of the search service

The repository sends filter strings such as
`user_id eq DQuidDQ and source eq DQnameDQ` (DQ the single quote) to the
managed search service.  The service is external to src/, so its filter
grammar is modelled from the spec: equality comparisons on string fields,
joined by and, with string literals delimited by single quotes in which a
doubled quote is an escaped quote (the OData convention the spec alludes to
when it calls the quote a filter-syntax metacharacter). -/

/-- Abstract syntax of the filter sublanguage used by the repository. -/
inductive FiltExpr where
  | eqCmp (field value : String)
  | andE (l r : FiltExpr)
  deriving DecidableEq, Repr

/-- Value of a named filterable field of a chunk. -/
def chunkFieldVal (c : Chunk) (f : String) : String :=
  if f = "user_id" then c.user_id
  else if f = "source" then c.source
  else if f = "title" then c.title
  else if f = "content" then c.content
  else if f = "metadata" then c.metadata
  else ""

/-- Evaluation of a filter expression against one chunk. -/
def evalFilt (e : FiltExpr) (c : Chunk) : Bool :=
  match e with
  | .eqCmp f v => chunkFieldVal c f == v
  | .andE a b => evalFilt a c && evalFilt b c

/-- Characters allowed in a field identifier of the filter grammar. -/
def isIdentChar (c : Char) : Bool :=
  c.isAlpha || c.isDigit || c = Char.ofNat 95

/-- Parse the remainder of a single-quoted string literal (the opening
quote has been consumed, chars so far are in acc, reversed).  A doubled
quote is an escaped quote; an unterminated literal fails. -/
def parseLitAux : List Char → List Char → Option (String × List Char)
  | _, [] => none
  | acc, c :: rest =>
    if c = squoteChar then
      match rest with
      | [] => some (String.mk acc.reverse, [])
      | c2 :: rest2 =>
        if c2 = squoteChar then parseLitAux (squoteChar :: acc) rest2
        else some (String.mk acc.reverse, c2 :: rest2)
    else parseLitAux (c :: acc) rest

/-- Strip an expected literal token from the front of the input. -/
def stripTok : List Char → List Char → Option (List Char)
  | [], cs => some cs
  | _ :: _, [] => none
  | t :: ts, c :: cs => if c = t then stripTok ts cs else none

/-- Parse one comparison: an identifier, the token eq, and a quoted
string literal. -/
def parseCmp (cs : List Char) : Option (FiltExpr × List Char) :=
  let ident := cs.takeWhile isIdentChar
  let rest := cs.dropWhile isIdentChar
  if ident.isEmpty then none
  else
    match stripTok " eq ".data rest with
    | none => none
    | some r =>
      match r with
      | [] => none
      | c :: r2 =>
        if c = squoteChar then
          match parseLitAux [] r2 with
          | some (v, r3) => some (FiltExpr.eqCmp (String.mk ident) v, r3)
          | none => none
        else none

/-- Parse a conjunction of comparisons joined by the token and.  The fuel
argument only guarantees termination and is chosen larger than any
possible number of conjuncts. -/
def parseConj : Nat → List Char → Option (FiltExpr × List Char)
  | 0, _ => none
  | fuel + 1, cs =>
    match parseCmp cs with
    | none => none
    | some (e, rest) =>
      match stripTok " and ".data rest with
      | some r =>
        match parseConj fuel r with
        | some (e2, rest2) => some (FiltExpr.andE e e2, rest2)
        | none => none
      | none => some (e, rest)

/-- Parse a complete filter string; the whole input must be consumed. -/
def parseFilter (s : String) : Option FiltExpr :=
  match parseConj (s.data.length + 2) s.data with
  | some (e, []) => some e
  | _ => none

/-- The filter string services.delete_document_by_name interpolates at
line 107: user_id eq quoted-uid and source eq quoted-name, built by direct
string interpolation of the two values. -/
def buildDeleteFilter (user_id document_name : String) : String :=
  "user_id eq " ++ squote ++ user_id ++ squote ++
    " and source eq " ++ squote ++ document_name ++ squote

/-- The filter string services.stream_rag_answer interpolates at line 149
into the retriever search kwargs: user_id eq quoted-uid. -/
def buildUserFilter (user_id : String) : String :=
  "user_id eq " ++ squote ++ user_id ++ squote

/-- True when a string contains no single quote, the one metacharacter of
the modelled filter grammar. -/
def sqFree (s : String) : Bool := s.data.all (fun c => !(c == squoteChar))

/-! ## Document ingestion (services.ingest_files, lines 42-89) -/

/-- Metadata attached to a page by the PDF loader and carried to its
chunks by split_documents: the source filename and the page number. -/
structure DocMeta where
  source : String
  page : Nat
  deriving DecidableEq, Repr

/-- A langchain document: page text plus metadata. -/
structure Document where
  page_content : String
  metadata : DocMeta
  deriving DecidableEq, Repr

/-- A FastAPI UploadFile as ingest_files consumes it: the filename, the
declared content type, and the outcome of running the external PyMuPDF
loader over its bytes (the loader may raise, e.g. on corrupt bytes). -/
structure UploadFile where
  filename : String
  content_type : String
  pages : Except String (List Document)
  deriving Repr

/-- RecursiveCharacterTextSplitter.split_documents: each document is split
into text pieces by the external splitter (abstracted as splitText) and
each piece inherits the document metadata. -/
def splitDocuments (splitText : String → List String) (docs : List Document) :
    List Document :=
  docs.flatMap (fun d => (splitText d.page_content).map
    (fun t => { page_content := t, metadata := d.metadata }))

/-- Name of the temporary file created for the i-th accepted file of one
ingestion call (tempfile.NamedTemporaryFile, abstracted as a counter). -/
def tempPath (i : Nat) : String := "tmp" ++ toString i ++ ".pdf"

/-- The per-file loop of ingest_files (lines 49-70).  Non-PDF files are
skipped.  For an accepted file a temporary file is written, the loader
runs, and only after a successful load is the temporary file removed
(os.remove at line 62); a loader failure propagates and leaves the
temporary file behind.  Returns the loop outcome together with the
temporary files still on disk when the loop ends. -/
def ingestLoop (splitText : String → List String) :
    List UploadFile → Nat → Except String (List Document) × List String
  | [], _ => (Except.ok [], [])
  | f :: fs, i =>
    if f.content_type == "application/pdf" then
      match f.pages with
      | Except.error e => (Except.error e, [tempPath i])
      | Except.ok docs =>
        let docs2 := docs.map (fun d =>
          { d with metadata := { d.metadata with source := f.filename } })
        let chunks := splitDocuments splitText docs2
        match ingestLoop splitText fs (i + 1) with
        | (Except.ok rest, temps) => (Except.ok (chunks ++ rest), temps)
        | (Except.error e, temps) => (Except.error e, temps)
    else
      ingestLoop splitText fs i

/-- The metadata record built for each chunk at lines 80-85: source and
title from the chunk metadata, user_id from the caller, and a JSON string
with source and page. -/
structure ChunkMeta where
  source : String
  title : String
  user_id : String
  metadata : String
  deriving DecidableEq, Repr

/-- json.dumps of the source and page fields, with the default separators
of the Python encoder. -/
def jsonMeta (source : String) (page : Nat) : String :=
  "\x7b\"source\": \"" ++ source ++ "\", \"page\": " ++ toString page ++ "\x7d"

/-- The metadata dict constructed per chunk at lines 80-85. -/
def mkMeta (c : Document) (user_id : String) : ChunkMeta :=
  { source := c.metadata.source
    title := c.metadata.source
    user_id := user_id
    metadata := jsonMeta c.metadata.source c.metadata.page }

/-- Chunk records created by AzureSearch.add_texts for a list of
text-metadata pairs, with fresh consecutive keys from nextId. -/
def mkChunks (nextId : Nat) : List (String × ChunkMeta) → List Chunk
  | [] => []
  | (t, m) :: rest =>
    { id := nextId, content := t, source := m.source, title := m.title,
      user_id := m.user_id, metadata := m.metadata } :: mkChunks (nextId + 1) rest

/-- AzureSearch.add_texts (line 88): upserts one chunk per text into the
index, each with a freshly generated unique key. -/
def add_texts (st : IndexState) (entries : List (String × ChunkMeta)) :
    IndexState :=
  { chunks := st.chunks ++ mkChunks st.nextId entries
    nextId := st.nextId + entries.length }

/-- services.ingest_files (lines 42-89): run the per-file loop; if the
combined chunk list is empty return 0 without touching the index,
otherwise attach per-chunk metadata carrying the caller user_id, upsert,
and return the number of input files.  The result carries the possibly
changed index state and the leftover temporary files. -/
def ingest_files (splitText : String → List String) (files : List UploadFile)
    (user_id : String) (st : IndexState) :
    Except String Nat × IndexState × List String :=
  match ingestLoop splitText files 0 with
  | (Except.error e, temps) => (Except.error e, st, temps)
  | (Except.ok all_chunks, temps) =>
    if all_chunks.isEmpty then (Except.ok 0, st, temps)
    else
      let entries := all_chunks.map (fun c => (c.page_content, mkMeta c user_id))
      (Except.ok files.length, add_texts st entries, temps)

/-! ## Document deletion (services.delete_document_by_name, lines 91-134) -/

/-- SearchClient.delete_documents on a list of keys: every stored chunk
whose key is listed and whose per-key deletion reports success (the delOk
oracle, item.succeeded in the source) is removed. -/
def applyDelete (st : IndexState) (ids : List Nat) (delOk : Nat → Bool) :
    IndexState :=
  { st with chunks := st.chunks.filter (fun c => !(ids.contains c.id && delOk c.id)) }

/-- services.delete_document_by_name (lines 91-134).  The searchFails flag
models an exception raised by the search call inside the try block; an
unparseable filter likewise makes the service raise.  Both land in the
except handler, which returns false (line 132-134).  Otherwise the ids of
the chunks matching the interpolated filter are collected; an empty match
returns false (line 113-115); else the batch delete runs and the function
returns true exactly when every per-id deletion succeeded (lines 118-130),
logging rather than raising individual failures. -/
def delete_document_by_name (document_name user_id : String) (st : IndexState)
    (delOk : Nat → Bool) (searchFails : Bool) : Bool × IndexState :=
  if searchFails then (false, st)
  else
    match parseFilter (buildDeleteFilter user_id document_name) with
    | none => (false, st)
    | some filt =>
      let documents_to_delete := (st.chunks.filter (fun c => evalFilt filt c)).map (fun c => c.id)
      if documents_to_delete.isEmpty then (false, st)
      else
        (documents_to_delete.all delOk, applyDelete st documents_to_delete delOk)

/-! ## Retrieval (services.stream_rag_answer, lines 137-199) -/

/-- The retriever top-k; the AzureSearch retriever is created with the
langchain default k of 4, an internal constant not exposed to callers. -/
def k_top : Nat := 4

/-- Insert a chunk into a list sorted by descending relevance score. -/
def insertByScore (score : Chunk → Nat) (c : Chunk) : List Chunk → List Chunk
  | [] => [c]
  | x :: xs =>
    if score x ≤ score c then c :: x :: xs else x :: insertByScore score c xs

/-- Rank a list of chunks by descending relevance score. -/
def sortByScore (score : Chunk → Nat) (l : List Chunk) : List Chunk :=
  l.foldr (insertByScore score) []

/-- The hybrid search of the managed index, modelled from the spec: the
stored chunks satisfying the request filter, ranked by a relevance score
depending only on the chunk (and the query, fixed here), truncated to k.
A filter string the service cannot parse yields an error and no results. -/
def hybrid_search (st : IndexState) (score : Chunk → Nat) (filt : String)
    (k : Nat) : List Chunk :=
  match parseFilter filt with
  | none => []
  | some f => (sortByScore score (st.chunks.filter (fun c => evalFilt f c))).take k

/-- The retriever built at lines 147-150 of stream_rag_answer: hybrid
search with the mandatory interpolated user filter, top k_top. -/
def retrieveForUser (st : IndexState) (score : Chunk → Nat)
    (user_id : String) : List Chunk :=
  hybrid_search st score (buildUserFilter user_id) k_top

/-- format_docs (line 187-188): each retrieved chunk rendered as a Source
line and a Content line, joined by blank lines into the context block. -/
def format_docs (docs : List Chunk) : String :=
  String.intercalate "\n\n"
    (docs.map (fun d => "Source: " ++ d.source ++ "\nContent: " ++ d.content))

/-! ## HTTP endpoint handlers (src/backend/app/router.py) -/

/-- A FastAPI HTTPException: status code and detail message. -/
structure HTTPErr where
  status_code : Nat
  detail : String
  deriving DecidableEq, Repr

/-- Python str.strip default whitespace set (space, tab, newline, carriage
return, vertical tab, form feed). -/
def pyWhitespace (c : Char) : Bool :=
  c = ' ' || c = Char.ofNat 9 || c = Char.ofNat 10 || c = Char.ofNat 13 ||
    c = Char.ofNat 11 || c = Char.ofNat 12

/-- Python str.strip with no argument. -/
def pyStrip (s : String) : String :=
  String.mk (((s.data.dropWhile pyWhitespace).reverse.dropWhile pyWhitespace).reverse)

/-- router.sources_vector_endpoint (lines 95-119), with the uid extracted
from the verified token as a parameter.  The second component counts the
external provider calls the request performs (query embedding, index
search, chat completion); a request rejected by validation performs none.
-/
def sources_vector_endpoint (query user_id : String) (st : IndexState)
    (score : Chunk → Nat) : Except HTTPErr (List Chunk × String) × Nat :=
  if query == "" || pyStrip query == "" then
    (Except.error { status_code := 400, detail := "Query cannot be empty." }, 0)
  else if user_id == "" then
    (Except.error { status_code := 400, detail := "User ID is required." }, 0)
  else
    let docs := retrieveForUser st score user_id
    (Except.ok (docs, format_docs docs), 3)

/-- router.chat_endpoint for POST general (lines 122-175), non-RAG: after
validation it sends the two-message exchange to the completion provider
(one provider call) and streams the answer, abstracted by answerOf.  The
second component again counts external provider calls. -/
def chat_endpoint (query : String) (answerOf : String → String) :
    Except HTTPErr String × Nat :=
  if pyStrip query == "" then
    (Except.error { status_code := 400, detail := "Missing query in request body" }, 0)
  else
    (Except.ok (answerOf query), 1)

/-! ## Module import resolution (router.py line 9 against auth.py)

Python executes a from-import by looking each requested name up among the
attributes the source module defines; a missing name raises ImportError
and the importing module fails to load, so no handler defined in it can
ever be invoked. -/

/-- The module-level names bound by src/backend/app/auth.py: the imports,
the bearer scheme, the names bound in the try block, and its single
function definition. -/
def authModuleNames : List String :=
  ["os", "firebase_admin", "credentials", "auth", "firestore", "Depends",
   "HTTPException", "status", "HTTPBearer", "token_auth_scheme", "cred_path",
   "cred", "db", "get_current_user"]

/-- The names router.py line 9 imports from the auth module. -/
def routerAuthImports : List String :=
  ["get_current_user", "get_current_pilot_user"]

/-- A Python from-import succeeds exactly when every requested name is
bound in the source module. -/
def pythonFromImportOk (moduleNames imported : List String) : Bool :=
  imported.all (fun n => moduleNames.contains n)

/-- Whether the router module loads: its line-9 import must resolve. -/
def routerModuleLoads : Bool :=
  pythonFromImportOk authModuleNames routerAuthImports

/-- The authenticated endpoints whose handlers live in router.py. -/
def authenticatedEndpoints : List String :=
  ["POST /documents", "DELETE /documents/:document_name", "POST /sources"]

/-- A handler defined in router.py can be invoked only if the router
module loaded. -/
def endpointHandlerInvocable (_ep : String) : Bool := routerModuleLoads

/-! ## Concrete fixtures used by witnesses and counterexamples -/

/-- A splitter that keeps each page as one chunk. -/
def split1 : String → List String := fun s => [s]

/-- An empty index. -/
def emptyIndex : IndexState := { chunks := [], nextId := 0 }

/-- A file declared as PDF whose byte content makes the PyMuPDF loader
raise during page extraction. -/
def badPdf : UploadFile :=
  { filename := "bad.pdf", content_type := "application/pdf",
    pages := Except.error "FileDataError: cannot open broken document" }

/-- A well-formed one-page PDF upload. -/
def goodPdf : UploadFile :=
  { filename := "f.pdf", content_type := "application/pdf",
    pages := Except.ok [{ page_content := "The GLOBE program studies leadership.",
                          metadata := { source := "tmp", page := 0 } }] }

/-- A plain-text upload, skipped by the content-type filter. -/
def txtFile : UploadFile :=
  { filename := "notes.txt", content_type := "text/plain",
    pages := Except.ok [] }

/-- A constant relevance score. -/
def scoreOne : Chunk → Nat := fun _ => 1

/-- An index holding one chunk of another user v1. -/
def vIndex : IndexState :=
  { chunks := [{ id := 0, content := "v content", source := "g.pdf",
                 title := "g.pdf", user_id := "v1", metadata := "m" }],
    nextId := 1 }

/-! ## Lemmas about the filter grammar -/

theorem eqTok_data : " eq ".data = [' ', 'e', 'q', ' '] := rfl

theorem andTok_data : " and ".data = [' ', 'a', 'n', 'd', ' '] := rfl

theorem sqFree_spec (s : String) (h : sqFree s = true) :
    ∀ c ∈ s.data, c ≠ squoteChar := by
  intro c hc
  have := List.all_eq_true.mp h c hc
  simpa using this

theorem stripTok_append (t r : List Char) : stripTok t (t ++ r) = some r := by
  induction t with
  | nil => rfl
  | cons c ts ih => simp [stripTok, ih]

theorem parseLitAux_closed (v : List Char) :
    ∀ (acc rest : List Char),
    (∀ c ∈ v, c ≠ squoteChar) →
    (rest = [] ∨ ∃ c r, rest = c :: r ∧ c ≠ squoteChar) →
    parseLitAux acc (v ++ squoteChar :: rest) =
      some (String.mk (acc.reverse ++ v), rest) := by
  induction v with
  | nil =>
    intro acc rest _ hrest
    rcases hrest with h | ⟨c, r, hr, hc⟩
    · subst h; rw [parseLitAux.eq_def]; simp
    · subst hr; rw [parseLitAux.eq_def]; simp [hc]
  | cons x v ih =>
    intro acc rest hv hrest
    have hx : x ≠ squoteChar := hv x (by simp)
    have hv2 : ∀ c ∈ v, c ≠ squoteChar := fun c hc => hv c (by simp [hc])
    rw [List.cons_append, parseLitAux.eq_def]
    simp only [if_neg hx]
    rw [ih (x :: acc) rest hv2 hrest]
    simp

theorem parseCmp_built (field v : String) (rest : List Char)
    (hf1 : field.data ≠ [])
    (hf2 : ∀ c ∈ field.data, isIdentChar c = true)
    (hv : ∀ c ∈ v.data, c ≠ squoteChar)
    (hrest : rest = [] ∨ ∃ c r, rest = c :: r ∧ c ≠ squoteChar) :
    parseCmp (field.data ++ (" eq ".data ++ squoteChar :: (v.data ++ squoteChar :: rest))) =
      some (FiltExpr.eqCmp field v, rest) := by
  have hsp : isIdentChar ' ' = false := by decide
  have hne : field.data.isEmpty = false := by
    cases h : field.data with
    | nil => exact absurd h hf1
    | cons a l => rfl
  have htw : (field.data ++ (" eq ".data ++ squoteChar :: (v.data ++ squoteChar :: rest))).takeWhile isIdentChar = field.data := by
    rw [List.takeWhile_append_of_pos hf2, eqTok_data]
    simp [List.takeWhile_cons, hsp]
  have hdw : (field.data ++ (" eq ".data ++ squoteChar :: (v.data ++ squoteChar :: rest))).dropWhile isIdentChar = " eq ".data ++ squoteChar :: (v.data ++ squoteChar :: rest) := by
    rw [List.dropWhile_append_of_pos hf2, eqTok_data]
    simp [List.dropWhile_cons, hsp]
  simp only [parseCmp, htw, hdw, hne]
  rw [stripTok_append]
  simp only [if_pos rfl]
  rw [parseLitAux_closed v.data [] rest hv hrest]
  simp

theorem parseConj_single (fuel : Nat) (cs : List Char) (e : FiltExpr)
    (h : parseCmp cs = some (e, [])) :
    parseConj (fuel + 1) cs = some (e, []) := by
  simp [parseConj, h, stripTok]

theorem parseConj_pair (fuel : Nat) (cs r : List Char) (e1 e2 : FiltExpr)
    (h1 : parseCmp cs = some (e1, " and ".data ++ r))
    (h2 : parseCmp r = some (e2, [])) :
    parseConj (fuel + 2) cs = some (FiltExpr.andE e1 e2, []) := by
  have hr := parseConj_single fuel r e2 h2
  rw [show fuel + 2 = (fuel + 1) + 1 from rfl, parseConj.eq_def]
  simp only [h1, stripTok_append, hr]

theorem buildUserFilter_data (u : String) :
    (buildUserFilter u).data =
      "user_id".data ++ (" eq ".data ++ squoteChar :: (u.data ++ squoteChar :: [])) := by
  simp [buildUserFilter, squote, String.data_append]

theorem buildDeleteFilter_data (u d : String) :
    (buildDeleteFilter u d).data =
      "user_id".data ++ (" eq ".data ++ squoteChar ::
        (u.data ++ squoteChar :: (" and ".data ++
          ("source".data ++ (" eq ".data ++ squoteChar :: (d.data ++ squoteChar :: [])))))) := by
  simp [buildDeleteFilter, squote, String.data_append]

theorem parseFilter_userFilter (u : String) (hu : sqFree u = true) :
    parseFilter (buildUserFilter u) = some (FiltExpr.eqCmp "user_id" u) := by
  have hcmp : parseCmp ((buildUserFilter u).data) = some (FiltExpr.eqCmp "user_id" u, []) := by
    rw [buildUserFilter_data]
    exact parseCmp_built "user_id" u [] (by decide) (by decide)
      (sqFree_spec u hu) (Or.inl rfl)
  unfold parseFilter
  rw [show (buildUserFilter u).data.length + 2 = ((buildUserFilter u).data.length + 1) + 1 from rfl]
  rw [parseConj_single _ _ _ hcmp]

theorem parseFilter_deleteFilter (u d : String) (hu : sqFree u = true)
    (hd : sqFree d = true) :
    parseFilter (buildDeleteFilter u d) =
      some (FiltExpr.andE (FiltExpr.eqCmp "user_id" u) (FiltExpr.eqCmp "source" d)) := by
  have hcmp2 : parseCmp ("source".data ++ (" eq ".data ++ squoteChar :: (d.data ++ squoteChar :: []))) =
      some (FiltExpr.eqCmp "source" d, []) :=
    parseCmp_built "source" d [] (by decide) (by decide) (sqFree_spec d hd) (Or.inl rfl)
  have hcmp1 : parseCmp ((buildDeleteFilter u d).data) =
      some (FiltExpr.eqCmp "user_id" u,
        " and ".data ++ ("source".data ++ (" eq ".data ++ squoteChar :: (d.data ++ squoteChar :: [])))) := by
    rw [buildDeleteFilter_data]
    refine parseCmp_built "user_id" u _ (by decide) (by decide) (sqFree_spec u hu) ?_
    refine Or.inr ⟨' ', 'a' :: 'n' :: 'd' :: ' ' ::
      ("source".data ++ (" eq ".data ++ squoteChar :: (d.data ++ squoteChar :: []))), rfl, by decide⟩
  unfold parseFilter
  rw [show (buildDeleteFilter u d).data.length + 2 = ((buildDeleteFilter u d).data.length) + 2 from rfl]
  rw [parseConj_pair _ _ _ _ _ hcmp1 hcmp2]

theorem evalFilt_userFilter (u : String) (c : Chunk) :
    evalFilt (FiltExpr.eqCmp "user_id" u) c = (c.user_id == u) := by
  simp [evalFilt, chunkFieldVal]

theorem evalFilt_deleteFilter (u d : String) (c : Chunk) :
    evalFilt (FiltExpr.andE (FiltExpr.eqCmp "user_id" u) (FiltExpr.eqCmp "source" d)) c =
      (c.user_id == u && c.source == d) := by
  simp [evalFilt, chunkFieldVal]

/-! ## Lemmas about ranking, retrieval and the index -/

theorem mem_insertByScore (score : Chunk → Nat) (c x : Chunk) (l : List Chunk) :
    x ∈ insertByScore score c l ↔ x = c ∨ x ∈ l := by
  induction l with
  | nil => simp [insertByScore]
  | cons a l ih =>
    simp only [insertByScore]
    split
    · simp [List.mem_cons]
    · simp only [List.mem_cons, ih]
      tauto

theorem mem_sortByScore (score : Chunk → Nat) (x : Chunk) (l : List Chunk) :
    x ∈ sortByScore score l ↔ x ∈ l := by
  induction l with
  | nil => simp [sortByScore]
  | cons a l ih =>
    show x ∈ insertByScore score a (sortByScore score l) ↔ _
    rw [mem_insertByScore]
    simp [ih, List.mem_cons]

theorem mem_retrieveForUser (st : IndexState) (score : Chunk → Nat) (u : String)
    (hu : sqFree u = true) (c : Chunk) (hc : c ∈ retrieveForUser st score u) :
    c ∈ st.chunks ∧ c.user_id = u := by
  unfold retrieveForUser hybrid_search at hc
  rw [parseFilter_userFilter u hu] at hc
  have h1 : c ∈ sortByScore score
      (st.chunks.filter (fun c => evalFilt (FiltExpr.eqCmp "user_id" u) c)) :=
    List.take_subset _ _ hc
  rw [mem_sortByScore] at h1
  have h2 := List.mem_filter.mp h1
  refine ⟨h2.1, ?_⟩
  have h3 := h2.2
  rw [evalFilt_userFilter] at h3
  simpa using h3

theorem retrieve_depends_on_user_slice (st1 st2 : IndexState)
    (score : Chunk → Nat) (u : String) (hu : sqFree u = true)
    (h : st1.chunks.filter (fun c => c.user_id == u) =
         st2.chunks.filter (fun c => c.user_id == u)) :
    retrieveForUser st1 score u = retrieveForUser st2 score u := by
  have hfun : (fun c => evalFilt (FiltExpr.eqCmp "user_id" u) c) =
      (fun c : Chunk => c.user_id == u) := funext (evalFilt_userFilter u)
  unfold retrieveForUser hybrid_search
  rw [parseFilter_userFilter u hu]
  show (sortByScore score
      (st1.chunks.filter (fun c => evalFilt (FiltExpr.eqCmp "user_id" u) c))).take k_top =
    (sortByScore score
      (st2.chunks.filter (fun c => evalFilt (FiltExpr.eqCmp "user_id" u) c))).take k_top
  rw [hfun, h]

theorem mkChunks_user_id (entries : List (String × ChunkMeta)) :
    ∀ (n : Nat) (c : Chunk), c ∈ mkChunks n entries →
      ∃ t m, (t, m) ∈ entries ∧ c.user_id = m.user_id := by
  induction entries with
  | nil => intro n c hc; simp [mkChunks] at hc
  | cons p rest ih =>
    obtain ⟨t, m⟩ := p
    intro n c hc
    rcases List.mem_cons.mp hc with h | h
    · exact ⟨t, m, by simp, by rw [h]⟩
    · obtain ⟨t2, m2, hm, hu⟩ := ih (n + 1) c h
      exact ⟨t2, m2, by simp [hm], hu⟩

theorem mkChunks_id_bounds (entries : List (String × ChunkMeta)) :
    ∀ (n : Nat) (c : Chunk), c ∈ mkChunks n entries →
      n ≤ c.id ∧ c.id < n + entries.length := by
  induction entries with
  | nil => intro n c hc; simp [mkChunks] at hc
  | cons p rest ih =>
    obtain ⟨t, m⟩ := p
    intro n c hc
    rcases List.mem_cons.mp hc with h | h
    · rw [h]; simp
    · have := ih (n + 1) c h
      constructor
      · omega
      · simp only [List.length_cons]; omega

theorem mkChunks_pairwise (entries : List (String × ChunkMeta)) :
    ∀ (n : Nat), (mkChunks n entries).Pairwise (fun a b => a.id ≠ b.id) := by
  induction entries with
  | nil => intro n; simp [mkChunks]
  | cons p rest ih =>
    obtain ⟨t, m⟩ := p
    intro n
    show List.Pairwise _ (_ :: mkChunks (n + 1) rest)
    rw [List.pairwise_cons]
    refine ⟨?_, ih (n + 1)⟩
    intro b hb
    have := (mkChunks_id_bounds rest (n + 1) b hb).1
    show n ≠ b.id
    omega

/-- Well-formedness of the index: stored keys are below the next fresh key
and pairwise distinct (the search service enforces key uniqueness). -/
def WF (st : IndexState) : Prop :=
  (∀ c ∈ st.chunks, c.id < st.nextId) ∧
    st.chunks.Pairwise (fun a b => a.id ≠ b.id)

theorem WF_add_texts (st : IndexState) (entries : List (String × ChunkMeta))
    (h : WF st) : WF (add_texts st entries) := by
  obtain ⟨hlt, hpw⟩ := h
  constructor
  · intro c hc
    simp only [add_texts, List.mem_append] at hc
    simp only [add_texts]
    rcases hc with h | h
    · have := hlt c h; omega
    · have := (mkChunks_id_bounds entries st.nextId c h).2; omega
  · simp only [add_texts]
    rw [List.pairwise_append]
    refine ⟨hpw, mkChunks_pairwise entries st.nextId, ?_⟩
    intro a ha b hb
    have h1 := hlt a ha
    have h2 := (mkChunks_id_bounds entries st.nextId b hb).1
    omega

theorem pairwise_ne_id_inj (l : List Chunk)
    (h : l.Pairwise (fun a b => a.id ≠ b.id)) :
    ∀ c ∈ l, ∀ c2 ∈ l, c.id = c2.id → c = c2 := by
  induction l with
  | nil => simp
  | cons a l ih =>
    obtain ⟨h1, h2⟩ := List.pairwise_cons.mp h
    intro c hc c2 hc2 hid
    cases List.mem_cons.mp hc with
    | inl hca =>
      cases List.mem_cons.mp hc2 with
      | inl hc2a => rw [hca, hc2a]
      | inr hc2l =>
        exfalso
        rw [hca] at hid
        exact h1 c2 hc2l hid
    | inr hcl =>
      cases List.mem_cons.mp hc2 with
      | inl hc2a =>
        exfalso
        rw [hc2a] at hid
        exact h1 c hcl hid.symm
      | inr hc2l => exact ih h2 c hcl c2 hc2l hid

theorem delete_document_eq (document_name user_id : String) (st : IndexState)
    (delOk : Nat → Bool) (hu : sqFree user_id = true)
    (hd : sqFree document_name = true) :
    delete_document_by_name document_name user_id st delOk false =
      (if (st.chunks.filter (fun c => c.user_id == user_id && c.source == document_name)).isEmpty
       then (false, st)
       else (((st.chunks.filter (fun c => c.user_id == user_id && c.source == document_name)).map (fun c => c.id)).all delOk,
             applyDelete st ((st.chunks.filter (fun c => c.user_id == user_id && c.source == document_name)).map (fun c => c.id)) delOk)) := by
  have hfun : (fun c => evalFilt (FiltExpr.andE (FiltExpr.eqCmp "user_id" user_id)
      (FiltExpr.eqCmp "source" document_name)) c) =
      (fun c : Chunk => c.user_id == user_id && c.source == document_name) :=
    funext (evalFilt_deleteFilter user_id document_name)
  unfold delete_document_by_name
  rw [if_neg (by simp)]
  rw [parseFilter_deleteFilter user_id document_name hu hd]
  dsimp only
  rw [hfun]
  simp only [List.isEmpty_iff, List.map_eq_nil_iff]

theorem delete_success_inv (document_name user_id : String) (st st2 : IndexState)
    (delOk : Nat → Bool) (hu : sqFree user_id = true)
    (hd : sqFree document_name = true)
    (hdel : delete_document_by_name document_name user_id st delOk false = (true, st2)) :
    (st.chunks.filter (fun c => c.user_id == user_id && c.source == document_name)) ≠ [] ∧
    ((st.chunks.filter (fun c => c.user_id == user_id && c.source == document_name)).map (fun c => c.id)).all delOk = true ∧
    st2 = applyDelete st ((st.chunks.filter (fun c => c.user_id == user_id && c.source == document_name)).map (fun c => c.id)) delOk := by
  rw [delete_document_eq document_name user_id st delOk hu hd] at hdel
  by_cases hm : (st.chunks.filter (fun c => c.user_id == user_id && c.source == document_name)).isEmpty
  · rw [if_pos hm] at hdel
    exact absurd (congrArg Prod.fst hdel) (by simp)
  · rw [if_neg hm] at hdel
    have h1 := congrArg Prod.fst hdel
    have h2 := congrArg Prod.snd hdel
    simp only at h1 h2
    refine ⟨?_, h1, h2.symm⟩
    intro hnil
    exact hm (by rw [hnil]; rfl)

theorem ingest_files_cases (splitText : String → List String)
    (files : List UploadFile) (u : String) (st : IndexState) :
    ((ingest_files splitText files u st).2.1 = st) ∨
    (∃ all_chunks : List Document, (ingest_files splitText files u st).2.1 =
        add_texts st (all_chunks.map (fun c => (c.page_content, mkMeta c u)))) := by
  cases hloop : ingestLoop splitText files 0 with
  | mk r temps =>
    cases r with
    | error e =>
      left
      simp [ingest_files, hloop]
    | ok all_chunks =>
      by_cases he : all_chunks.isEmpty
      · left; simp [ingest_files, hloop, he]
      · right; exact ⟨all_chunks, by simp [ingest_files, hloop, he]⟩

theorem ingest_files_user_id (splitText : String → List String)
    (files : List UploadFile) (u : String) (st : IndexState) :
    ∀ c ∈ ((ingest_files splitText files u st).2.1).chunks,
      c ∈ st.chunks ∨ c.user_id = u := by
  intro c hc
  rcases ingest_files_cases splitText files u st with h | ⟨all_chunks, h⟩
  · rw [h] at hc; exact Or.inl hc
  · rw [h] at hc
    simp only [add_texts, List.mem_append] at hc
    rcases hc with h2 | h2
    · exact Or.inl h2
    · right
      obtain ⟨t, m, hm, huid⟩ := mkChunks_user_id _ _ c h2
      obtain ⟨c2, _, hc2⟩ := List.mem_map.mp hm
      rw [huid]
      have hms : m.user_id = u := by
        have := congrArg Prod.snd hc2
        simp only at this
        rw [← this]
        rfl
      exact hms

theorem ingest_files_WF (splitText : String → List String)
    (files : List UploadFile) (u : String) (st : IndexState) (h : WF st) :
    WF ((ingest_files splitText files u st).2.1) := by
  rcases ingest_files_cases splitText files u st with h2 | ⟨all_chunks, h2⟩
  · rw [h2]; exact h
  · rw [h2]; exact WF_add_texts st _ h

theorem ingest_files_filter_other (splitText : String → List String)
    (files : List UploadFile) (u v : String) (st : IndexState) (hvu : v ≠ u) :
    ((ingest_files splitText files u st).2.1).chunks.filter (fun c => c.user_id == v) =
      st.chunks.filter (fun c => c.user_id == v) := by
  rcases ingest_files_cases splitText files u st with h | ⟨all_chunks, h⟩
  · rw [h]
  · rw [h]
    simp only [add_texts, List.filter_append]
    have hnil : (mkChunks st.nextId (all_chunks.map (fun c => (c.page_content, mkMeta c u)))).filter (fun c => c.user_id == v) = [] := by
      rw [List.filter_eq_nil_iff]
      intro c hc
      obtain ⟨t, m, hm, huid⟩ := mkChunks_user_id _ _ c hc
      obtain ⟨c2, _, hc2⟩ := List.mem_map.mp hm
      have hms : m.user_id = u := by
        have := congrArg Prod.snd hc2
        simp only at this
        rw [← this]
        rfl
      rw [huid, hms]
      simp
      exact Ne.symm hvu
    rw [hnil, List.append_nil]

theorem applyDelete_preserves_other (st : IndexState) (delOk : Nat → Bool)
    (U V F : String) (hWF : WF st) (hvu : V ≠ U) :
    ((applyDelete st ((st.chunks.filter (fun c => c.user_id == U && c.source == F)).map (fun c => c.id)) delOk).chunks.filter (fun c => c.user_id == V)) =
      st.chunks.filter (fun c => c.user_id == V) := by
  unfold applyDelete
  dsimp only
  rw [List.filter_filter]
  apply List.filter_congr
  intro c hc
  by_cases hv : (c.user_id == V) = true
  · have hnotin : ((st.chunks.filter (fun c2 => c2.user_id == U && c2.source == F)).map (fun c2 => c2.id)).contains c.id = false := by
      cases hin : ((st.chunks.filter (fun c2 => c2.user_id == U && c2.source == F)).map (fun c2 => c2.id)).contains c.id with
      | false => rfl
      | true =>
        exfalso
        have hmem := List.elem_iff.mp hin
        obtain ⟨cm, hcm, hcmid⟩ := List.mem_map.mp hmem
        have hcm2 := List.mem_filter.mp hcm
        have hcmU : cm.user_id = U := by
          have h3 := hcm2.2
          simp only [Bool.and_eq_true, beq_iff_eq] at h3
          exact h3.1
        have hceq : cm = c := pairwise_ne_id_inj st.chunks hWF.2 cm hcm2.1 c hc hcmid
        have hcv : c.user_id = V := by simpa using hv
        rw [hceq, hcv] at hcmU
        exact hvu hcmU
    rw [hv, hnotin]
    simp
  · have hv2 : (c.user_id == V) = false := by
      cases h : (c.user_id == V) with
      | false => rfl
      | true => exact absurd h hv
    rw [hv2]
    simp

theorem applyDelete_removes_matched (st : IndexState) (delOk : Nat → Bool)
    (U F : String)
    (hall : ((st.chunks.filter (fun c => c.user_id == U && c.source == F)).map (fun c => c.id)).all delOk = true) :
    ∀ c ∈ (applyDelete st ((st.chunks.filter (fun c => c.user_id == U && c.source == F)).map (fun c => c.id)) delOk).chunks,
      ¬(c.user_id = U ∧ c.source = F) := by
  intro c hc hcontra
  obtain ⟨hcu, hcs⟩ := hcontra
  unfold applyDelete at hc
  dsimp only at hc
  have h2 := List.mem_filter.mp hc
  have hcmem : c ∈ st.chunks.filter (fun c => c.user_id == U && c.source == F) :=
    List.mem_filter.mpr ⟨h2.1, by simp [hcu, hcs]⟩
  have hidmem : c.id ∈ (st.chunks.filter (fun c => c.user_id == U && c.source == F)).map (fun c => c.id) :=
    List.mem_map.mpr ⟨c, hcmem, rfl⟩
  have hcontains := List.elem_iff.mpr hidmem
  have hdelok : delOk c.id = true := List.all_eq_true.mp hall c.id hidmem
  have h3 := h2.2
  simp only [List.contains, hcontains, hdelok] at h3
  simp at h3

theorem ingestLoop_filter_pdf (splitText : String → List String)
    (files : List UploadFile) :
    ∀ i, ingestLoop splitText (files.filter (fun f => f.content_type == "application/pdf")) i =
      ingestLoop splitText files i := by
  induction files with
  | nil => intro i; rfl
  | cons f fs ih =>
    intro i
    by_cases hf : (f.content_type == "application/pdf") = true
    · rw [show (f :: fs).filter (fun f => f.content_type == "application/pdf") =
          f :: fs.filter (fun f => f.content_type == "application/pdf") from by
        simp [List.filter_cons, hf]]
      simp only [ingestLoop, hf]
      rw [ih (i + 1)]
      simp
    · have hf2 : (f.content_type == "application/pdf") = false := by
        cases h : (f.content_type == "application/pdf") with
        | false => rfl
        | true => exact absurd h hf
      rw [show (f :: fs).filter (fun f => f.content_type == "application/pdf") =
          fs.filter (fun f => f.content_type == "application/pdf") from by
        simp [List.filter_cons, hf2]]
      rw [ih i]
      simp only [ingestLoop, hf2]
      rfl

theorem pyStrip_blank (s : String) (h : s.data.all pyWhitespace = true) :
    pyStrip s = "" := by
  have h2 : s.data.dropWhile pyWhitespace = [] := by
    rw [List.dropWhile_eq_nil_iff]
    intro a ha
    exact List.all_eq_true.mp h a ha
  unfold pyStrip
  rw [h2]
  rfl

/-! ## Claim theorems -/

/-- Claim C1: every retrieval call for a user A goes through the mandatory
interpolated filter user_id eq A, so every chunk handed to format_docs for
the context block has user_id equal to A, and two index states that agree
on the chunks owned by A give A the same retrieval result and the same
formatted context, whatever the other users chunks are. -/
theorem user_filter_isolates_retrieval (st1 st2 : IndexState)
    (score : Chunk → Nat) (A : String) (hA : sqFree A = true) :
    (∀ c ∈ retrieveForUser st1 score A, c.user_id = A) ∧
    (st1.chunks.filter (fun c => c.user_id == A) =
        st2.chunks.filter (fun c => c.user_id == A) →
      retrieveForUser st1 score A = retrieveForUser st2 score A ∧
      format_docs (retrieveForUser st1 score A) =
        format_docs (retrieveForUser st2 score A)) := by
  constructor
  · intro c hc
    exact (mem_retrieveForUser st1 score A hA c hc).2
  · intro h
    have heq := retrieve_depends_on_user_slice st1 st2 score A hA h
    exact ⟨heq, by rw [heq]⟩

/-- First witness index: one chunk of u1 and one of u2. -/
def wSt1 : IndexState :=
  { chunks := [{ id := 0, content := "alpha", source := "a.pdf", title := "a.pdf",
                 user_id := "u1", metadata := "m" },
               { id := 1, content := "beta", source := "b.pdf", title := "b.pdf",
                 user_id := "u2", metadata := "m" }],
    nextId := 2 }

/-- Second witness index: the same u1 chunk but different foreign chunks. -/
def wSt2 : IndexState :=
  { chunks := [{ id := 0, content := "alpha", source := "a.pdf", title := "a.pdf",
                 user_id := "u1", metadata := "m" },
               { id := 2, content := "gamma", source := "c.pdf", title := "c.pdf",
                 user_id := "u3", metadata := "m" }],
    nextId := 3 }

theorem user_filter_isolates_retrieval_witness :
    (∀ c ∈ retrieveForUser wSt1 scoreOne "u1", c.user_id = "u1") ∧
    (wSt1.chunks.filter (fun c => c.user_id == "u1") =
        wSt2.chunks.filter (fun c => c.user_id == "u1") →
      retrieveForUser wSt1 scoreOne "u1" = retrieveForUser wSt2 scoreOne "u1" ∧
      format_docs (retrieveForUser wSt1 scoreOne "u1") =
        format_docs (retrieveForUser wSt2 scoreOne "u1")) :=
  user_filter_isolates_retrieval wSt1 wSt2 scoreOne "u1" (by decide)

/-- Claim C2: router.py line 9 imports get_current_pilot_user from the
auth module, but the auth module binds no such name, so the from-import
cannot resolve, the router module never loads, and no authenticated
endpoint handler can ever be invoked. -/
theorem pilot_user_import_unresolvable :
    authModuleNames.contains "get_current_pilot_user" = false ∧
    routerModuleLoads = false ∧
    authenticatedEndpoints.all (fun ep => endpointHandlerInvocable ep == false) = true := by
  decide

/-- Claim C3: any chunk present in the index after an ingestion call for
user U that was not already stored carries user_id exactly U; the value
comes only from the caller argument, never from file contents or names,
since the theorem holds for every file list. -/
theorem ingested_chunks_carry_caller_user_id
    (splitText : String → List String) (files : List UploadFile)
    (U : String) (st : IndexState) (c : Chunk)
    (hc : c ∈ ((ingest_files splitText files U st).2.1).chunks)
    (hnew : c ∉ st.chunks) :
    c.user_id = U := by
  rcases ingest_files_user_id splitText files U st c hc with h | h
  · exact absurd h hnew
  · exact h

/-- The chunk the witness ingestion produces. -/
def wIngChunk : Chunk :=
  { id := 0, content := "The GLOBE program studies leadership.",
    source := "f.pdf", title := "f.pdf", user_id := "u1",
    metadata := jsonMeta "f.pdf" 0 }

theorem ingested_chunks_carry_caller_user_id_witness :
    (wIngChunk ∈ ((ingest_files split1 [goodPdf] "u1" emptyIndex).2.1).chunks ∧
      wIngChunk ∉ emptyIndex.chunks) ∧ wIngChunk.user_id = "u1" :=
  ⟨⟨by decide, by decide⟩,
    ingested_chunks_carry_caller_user_id split1 [goodPdf] "u1" emptyIndex wIngChunk
      (by decide) (by decide)⟩

/-- Claim C4: when the per-file loop succeeds, an empty combined chunk
list makes ingest_files return 0 with the index untouched, and a nonempty
one makes it upsert and return the length of the original input file list,
counting files skipped as non-PDF. -/
theorem ingest_count_and_empty_behavior
    (splitText : String → List String) (files : List UploadFile)
    (U : String) (st : IndexState) (all_chunks : List Document)
    (temps : List String)
    (hloop : ingestLoop splitText files 0 = (Except.ok all_chunks, temps)) :
    (all_chunks = [] →
      ingest_files splitText files U st = (Except.ok 0, st, temps)) ∧
    (all_chunks ≠ [] →
      ingest_files splitText files U st =
        (Except.ok files.length,
          add_texts st (all_chunks.map (fun c => (c.page_content, mkMeta c U))),
          temps)) := by
  constructor
  · intro h
    subst h
    simp [ingest_files, hloop]
  · intro h
    have he : all_chunks.isEmpty = false := by
      cases hx : all_chunks with
      | nil => exact absurd hx h
      | cons a l => rfl
    simp [ingest_files, hloop, he]

/-- The combined chunk list of the witness ingestion. -/
def wLoopChunks : List Document :=
  [{ page_content := "The GLOBE program studies leadership.",
     metadata := { source := "f.pdf", page := 0 } }]

theorem ingest_count_and_empty_behavior_witness :
    ingestLoop split1 [goodPdf, txtFile] 0 = (Except.ok wLoopChunks, []) ∧
    (wLoopChunks ≠ [] →
      ingest_files split1 [goodPdf, txtFile] "u1" emptyIndex =
        (Except.ok 2,
          add_texts emptyIndex (wLoopChunks.map (fun c => (c.page_content, mkMeta c "u1"))),
          [])) :=
  ⟨rfl,
    (ingest_count_and_empty_behavior split1 [goodPdf, txtFile] "u1" emptyIndex
      wLoopChunks [] rfl).2⟩

/-- Claim C5: delete_document_by_name never raises (it is a total Boolean
function); a failed search call returns false with the index unchanged, a
zero-match query returns false with the index unchanged, and when matches
exist the result is true exactly when every per-id deletion in the batch
reports success (per-id failures are only logged). -/
theorem delete_result_characterization (document_name user_id : String)
    (st : IndexState) (delOk : Nat → Bool)
    (hu : sqFree user_id = true) (hd : sqFree document_name = true) :
    (delete_document_by_name document_name user_id st delOk true = (false, st)) ∧
    (st.chunks.filter (fun c => c.user_id == user_id && c.source == document_name) = [] →
      delete_document_by_name document_name user_id st delOk false = (false, st)) ∧
    (st.chunks.filter (fun c => c.user_id == user_id && c.source == document_name) ≠ [] →
      ((delete_document_by_name document_name user_id st delOk false).1 = true ↔
        ((st.chunks.filter (fun c => c.user_id == user_id && c.source == document_name)).map (fun c => c.id)).all delOk = true)) := by
  refine ⟨rfl, ?_, ?_⟩
  · intro h
    rw [delete_document_eq document_name user_id st delOk hu hd]
    rw [if_pos (by rw [h]; rfl)]
  · intro h
    have he : (st.chunks.filter (fun c => c.user_id == user_id && c.source == document_name)).isEmpty = false := by
      cases hx : st.chunks.filter (fun c => c.user_id == user_id && c.source == document_name) with
      | nil => exact absurd hx h
      | cons a l => rfl
    rw [delete_document_eq document_name user_id st delOk hu hd]
    rw [if_neg (by rw [he]; exact Bool.false_ne_true)]

/-- A deletion oracle that fails one specific key. -/
def delOkExceptOne : Nat → Bool := fun i => !(i == 1)

theorem delete_result_characterization_witness :
    (delete_document_by_name "a.pdf" "u1" wSt1 delOkExceptOne true = (false, wSt1)) ∧
    (wSt1.chunks.filter (fun c => c.user_id == "u1" && c.source == "a.pdf") = [] →
      delete_document_by_name "a.pdf" "u1" wSt1 delOkExceptOne false = (false, wSt1)) ∧
    (wSt1.chunks.filter (fun c => c.user_id == "u1" && c.source == "a.pdf") ≠ [] →
      ((delete_document_by_name "a.pdf" "u1" wSt1 delOkExceptOne false).1 = true ↔
        ((wSt1.chunks.filter (fun c => c.user_id == "u1" && c.source == "a.pdf")).map (fun c => c.id)).all delOkExceptOne = true)) :=
  delete_result_characterization "a.pdf" "u1" wSt1 delOkExceptOne (by decide) (by decide)

/-- Claim C6 (amended): the deletion filter is built by directly
interpolating the requester id and the document name; for values free of
the single-quote metacharacter it denotes exactly the conjunction
user_id-equals-requester and source-equals-name, but not for every
document name: a name containing a single quote changes the parse (see
the counterexample). -/
theorem delete_filter_denotation_quote_free (u d : String)
    (hu : sqFree u = true) (hd : sqFree d = true) :
    buildDeleteFilter u d =
      "user_id eq " ++ squote ++ u ++ squote ++ " and source eq " ++ squote ++ d ++ squote ∧
    parseFilter (buildDeleteFilter u d) =
      some (FiltExpr.andE (FiltExpr.eqCmp "user_id" u) (FiltExpr.eqCmp "source" d)) ∧
    ∀ c : Chunk,
      evalFilt (FiltExpr.andE (FiltExpr.eqCmp "user_id" u) (FiltExpr.eqCmp "source" d)) c =
        (c.user_id == u && c.source == d) :=
  ⟨rfl, parseFilter_deleteFilter u d hu hd, evalFilt_deleteFilter u d⟩

theorem delete_filter_denotation_quote_free_witness :
    buildDeleteFilter "u1" "doc.pdf" =
      "user_id eq " ++ squote ++ "u1" ++ squote ++ " and source eq " ++ squote ++ "doc.pdf" ++ squote ∧
    parseFilter (buildDeleteFilter "u1" "doc.pdf") =
      some (FiltExpr.andE (FiltExpr.eqCmp "user_id" "u1") (FiltExpr.eqCmp "source" "doc.pdf")) ∧
    ∀ c : Chunk,
      evalFilt (FiltExpr.andE (FiltExpr.eqCmp "user_id" "u1") (FiltExpr.eqCmp "source" "doc.pdf")) c =
        (c.user_id == "u1" && c.source == "doc.pdf") :=
  delete_filter_denotation_quote_free "u1" "doc.pdf" (by decide) (by decide)

/-- A document name containing the single-quote filter metacharacter. -/
def quoteName : String := "a" ++ squote

/-- Claim C6 counterexample: with the document name a followed by a single
quote, the directly interpolated deletion filter does not denote the
predicate the claim states for every name: the resulting filter string
does not even parse in the filter grammar, so no expression with the
claimed meaning is denoted. -/
theorem delete_filter_quote_name_counterexample :
    ¬ ∃ e, parseFilter (buildDeleteFilter "u1" quoteName) = some e ∧
      ∀ c : Chunk, evalFilt e c = (c.user_id == "u1" && c.source == quoteName) := by
  intro hcontra
  obtain ⟨e, he, _⟩ := hcontra
  have hnone : parseFilter (buildDeleteFilter "u1" quoteName) = none := by decide
  rw [hnone] at he
  cases he

/-- Claim C7: a query that is empty or entirely whitespace is rejected by
both POST sources and POST general with a 400 validation error before any
provider call is made (the call counter stays at zero). -/
theorem blank_query_rejected_before_provider_calls (q uid : String)
    (st : IndexState) (score : Chunk → Nat) (answerOf : String → String)
    (hq : q.data.all pyWhitespace = true) :
    sources_vector_endpoint q uid st score =
      (Except.error { status_code := 400, detail := "Query cannot be empty." }, 0) ∧
    chat_endpoint q answerOf =
      (Except.error { status_code := 400, detail := "Missing query in request body" }, 0) := by
  have hstrip : pyStrip q = "" := pyStrip_blank q hq
  constructor
  · unfold sources_vector_endpoint
    rw [hstrip]
    simp
  · unfold chat_endpoint
    rw [hstrip]
    simp

theorem blank_query_rejected_before_provider_calls_witness :
    sources_vector_endpoint "  " "u1" wSt1 scoreOne =
      (Except.error { status_code := 400, detail := "Query cannot be empty." }, 0) ∧
    chat_endpoint "  " (fun q => q) =
      (Except.error { status_code := 400, detail := "Missing query in request body" }, 0) :=
  blank_query_rejected_before_provider_calls "  " "u1" wSt1 scoreOne (fun q => q)
    (by decide)

/-- Claim C8: files whose declared content type is not application/pdf are
skipped without error and contribute nothing to the index: an ingestion
call behaves on its per-file loop exactly as the same call with the
non-PDF files removed, and produces the same index state and the same
leftover temporary files. -/
theorem non_pdf_files_contribute_nothing (splitText : String → List String)
    (files : List UploadFile) (U : String) (st : IndexState) :
    (∀ i, ingestLoop splitText (files.filter (fun f => f.content_type == "application/pdf")) i =
        ingestLoop splitText files i) ∧
    (ingest_files splitText (files.filter (fun f => f.content_type == "application/pdf")) U st).2 =
      (ingest_files splitText files U st).2 := by
  have hloop := ingestLoop_filter_pdf splitText files
  refine ⟨hloop, ?_⟩
  unfold ingest_files
  rw [hloop 0]
  cases ingestLoop splitText files 0 with
  | mk r temps =>
    cases r with
    | error e => rfl
    | ok all_chunks =>
      by_cases he : all_chunks.isEmpty = true
      · simp [he]
      · have he2 : all_chunks.isEmpty = false := by
          cases h : all_chunks.isEmpty with
          | false => rfl
          | true => exact absurd h he
        simp [he2]

/-- Claim C9: after ingesting files for user U into a well-formed index
and then successfully deleting document F for U, a retrieval for U
returns no chunk with source F, and a retrieval for any other user V is
the same as against the original index: both operations are invisible to
V. -/
theorem ingest_delete_roundtrip_isolation
    (splitText : String → List String) (files : List UploadFile)
    (U V F : String) (st st1 st2 : IndexState)
    (score score2 : Chunk → Nat) (delOk : Nat → Bool) (n : Nat)
    (temps : List String)
    (hWF : WF st) (hU : sqFree U = true) (hF : sqFree F = true)
    (hV : sqFree V = true) (hVU : V ≠ U)
    (hing : ingest_files splitText files U st = (Except.ok n, st1, temps))
    (hdel : delete_document_by_name F U st1 delOk false = (true, st2)) :
    (∀ c ∈ retrieveForUser st2 score U, c.source ≠ F) ∧
    retrieveForUser st2 score2 V = retrieveForUser st score2 V := by
  have hst1 : st1 = (ingest_files splitText files U st).2.1 := by rw [hing]
  have hWF1 : WF st1 := by
    rw [hst1]
    exact ingest_files_WF splitText files U st hWF
  obtain ⟨hne, hall, hst2⟩ := delete_success_inv F U st1 st2 delOk hU hF hdel
  constructor
  · intro c hc hsrc
    have hmem := mem_retrieveForUser st2 score U hU c hc
    have hmem1 : c ∈ (applyDelete st1 ((st1.chunks.filter (fun c => c.user_id == U && c.source == F)).map (fun c => c.id)) delOk).chunks := by
      rw [← hst2]
      exact hmem.1
    exact applyDelete_removes_matched st1 delOk U F hall c hmem1 ⟨hmem.2, hsrc⟩
  · have h1 : st2.chunks.filter (fun c => c.user_id == V) =
        st1.chunks.filter (fun c => c.user_id == V) := by
      rw [hst2]
      exact applyDelete_preserves_other st1 delOk U V F hWF1 hVU
    have h2 : st1.chunks.filter (fun c => c.user_id == V) =
        st.chunks.filter (fun c => c.user_id == V) := by
      rw [hst1]
      exact ingest_files_filter_other splitText files U V st hVU
    exact retrieve_depends_on_user_slice st2 st score2 V hV (h1.trans h2)

/-- A deletion backend where every per-key deletion succeeds. -/
def delOkAll : Nat → Bool := fun _ => true

/-- Index state after the witness ingestion of f.pdf for u1 into the index
holding one chunk of v1. -/
def wSt1Ing : IndexState := (ingest_files split1 [goodPdf] "u1" vIndex).2.1

/-- Index state after then deleting f.pdf for u1. -/
def wSt2Del : IndexState :=
  (delete_document_by_name "f.pdf" "u1" wSt1Ing delOkAll false).2

theorem ingest_delete_roundtrip_isolation_witness :
    (∀ c ∈ retrieveForUser wSt2Del scoreOne "u1", c.source ≠ "f.pdf") ∧
    retrieveForUser wSt2Del scoreOne "v1" = retrieveForUser vIndex scoreOne "v1" :=
  ingest_delete_roundtrip_isolation split1 [goodPdf] "u1" "v1" "f.pdf"
    vIndex wSt1Ing wSt2Del scoreOne scoreOne delOkAll 1 []
    (by constructor
        · decide
        · decide)
    (by decide) (by decide) (by decide) (by decide) rfl rfl

/-- Claim C10 (code bug): ingest_files writes the temporary copy with
deletion disabled and calls os.remove only after a successful loader run,
with no finally block, so when page extraction raises for an accepted
file the call errors out with that temporary file still on disk, while a
successful run leaves none behind. -/
theorem failed_extraction_leaves_temp_file :
    (ingest_files split1 [badPdf] "u1" emptyIndex).2.2 = [tempPath 0] ∧
    (ingest_files split1 [badPdf] "u1" emptyIndex).2.2 ≠ [] ∧
    (ingest_files split1 [badPdf] "u1" emptyIndex).1 =
      Except.error "FileDataError: cannot open broken document" ∧
    (ingest_files split1 [goodPdf] "u1" emptyIndex).2.2 = [] :=
  ⟨rfl, by decide, rfl, rfl⟩
